import Mathlib

/-!
Verification of the selector learn/apply engine of `selector_map_numbers.py`
(and the date bucketing shared with `records.py`).

Strings are modelled as `List Char` (`Str`), so that every operation is a
plain structural recursion the kernel can evaluate.  The rendered page is
modelled flat: the document-order list of elements under `body`, each element
carrying its own data together with its ancestor context (parent data, the
tags of the parent's children, and its index among them).  This is exactly
the information the in-page script reads through the DOM API.
-/

namespace STracker

abbrev Str := List Char

/-- Whitespace, as trimmed by JS `String.trim` / Python `str.strip` (ASCII). -/
def isWsChar (c : Char) : Bool :=
  c = ' ' || c = '\t' || c = '\n' || c = '\r' || c = '\x0b' || c = '\x0c'

/-- JS `text.trim()` / Python `s.strip()`: drop whitespace on both ends. -/
def trim (s : Str) : Str :=
  ((s.dropWhile isWsChar).reverse.dropWhile isWsChar).reverse

/-- ASCII lowercasing, modelling JS `toLowerCase` / Python `lower` on the
ASCII inputs this program handles. -/
def toLowerStr (s : Str) : Str := s.map Char.toLower

/-- JS `hay.includes needle` / Python `in`: substring test. -/
def isSub (needle hay : Str) : Bool :=
  (List.range (hay.length + 1)).any fun i => needle.isPrefixOf (hay.drop i)

/-- Python `s.lower().startswith(p)` building block. -/
def startsWith (p s : Str) : Bool := p.isPrefixOf s

/-- Maximal run of digits at the front: (digits, rest). -/
def digitRun (s : Str) : Str × Str := (s.takeWhile Char.isDigit, s.dropWhile Char.isDigit)

/-- The optional fractional part `(?:\.\d+)?` of `NumberRe`, greedy. -/
def fracRun (s : Str) : Str :=
  match s with
  | '.' :: r => (fun ds => if ds = [] then [] else '.' :: ds) (r.takeWhile Char.isDigit)
  | _ => []

/-- A match of `NumberRe = [-+]?\d+(?:\.\d+)?` anchored at the front of `s`,
greedy, or `none`.  Mirrors Python `re` semantics for this pattern. -/
def numMatchAt (s : Str) : Option Str :=
  match s with
  | [] => none
  | c :: r =>
    if c = '+' || c = '-' then
      match digitRun r with
      | ([], _) => none
      | (ds, rest) => some (c :: ds ++ fracRun rest)
    else if c.isDigit then
      match digitRun s with
      | (ds, rest) => some (ds ++ fracRun rest)
    else none

/-- `NumberRe.search`: leftmost match of `[-+]?\d+(?:\.\d+)?`, or `none`. -/
def searchNum : Str → Option Str
  | [] => none
  | c :: r =>
    match numMatchAt (c :: r) with
    | some m => some m
    | none => searchNum r

/-- Digits to a natural number (most significant first). -/
def digitsToNat (ds : Str) : Nat :=
  ds.foldl (fun acc c => 10 * acc + (c.toNat - ('0').toNat)) 0

/-- The components of a decimal literal `[-+]?\d+(?:\.\d+)?`, requiring the
whole string to have that shape: (negative sign, integer digits, fraction
digits). -/
def decParts (s : Str) : Option (Bool × Str × Str) :=
  (fun (sgn : Bool) (s1 : Str) =>
    match digitRun s1 with
    | ([], _) => none
    | (ds, r) =>
      match r with
      | [] => some (sgn, ds, ([] : Str))
      | '.' :: r2 =>
        match digitRun r2 with
        | ([], _) => none
        | (fs, r3) => if r3 = [] then some (sgn, ds, fs) else none
      | _ => none)
  (s.head? = some '-')
  (match s with
   | '+' :: r => r
   | '-' :: r => r
   | _ => s)

/-- Python `float(s)` on the decimal literals `NumberRe` produces, modelled
exactly over the rationals; `none` models `float` raising (caught upstream).
Two equal literal strings parse to the same IEEE double, and the distinct
small literals compared in this file parse to distinct doubles, so rational
exactness is a faithful model for every equation proved here. -/
def parseDec (s : Str) : Option ℚ :=
  (decParts s).map fun p =>
    mkRat ((if p.1 then (-1 : Int) else 1) *
        ((digitsToNat p.2.1 : Int) * (10 : Int) ^ p.2.2.length + (digitsToNat p.2.2 : Int)))
      ((10 : Nat) ^ p.2.2.length)

/-- Match tiers of `containsNumberLike`: the JS strings
'exact', 'exact_unit', 'partial' (here `sub`); `none` is JS `false`. -/
inductive Tier where
  | exact : Tier
  | exactUnit : Tier
  | sub : Tier
deriving DecidableEq

/-- `containsNumberLike(text, n, unit)` from `SELECTOR_JS`:
empty text is rejected first, then the tiers are tried in order
exact, exact-with-unit (with or without one space), substring. -/
def tierOf (text n u : Str) : Option Tier :=
  if text = [] then none
  else if trim text = n then some .exact
  else if u ≠ [] ∧ (trim text = n ++ u ∨ trim text = n ++ ' ' :: u) then some .exactUnit
  else if isSub n (trim text) then some .sub
  else none

/-- Base score of a tier: exact=60, exact_unit=45, partial=10. -/
def baseScore : Tier → ℚ
  | .exact => 60
  | .exactUnit => 45
  | .sub => 10

/-- `areaScore(rect)`: `1000 / Math.max(1, Math.sqrt(Math.max(1, w*h)))`,
idealised over the reals (JS computes in IEEE doubles; `Real.sqrt` is the
exact counterpart of `Math.sqrt`). -/
noncomputable def areaScore (wh : ℚ) : ℝ :=
  1000 / max 1 (Real.sqrt (max 1 ((wh : ℚ) : ℝ)))

/-- The final score assembled in the enumeration loop of `SELECTOR_JS`:
tier base + inverse-area bonus + 20 if the parent text holds the label. -/
noncomputable def scoreOf (t : Tier) (wh : ℚ) (nb : Bool) : ℝ :=
  ((baseScore t : ℚ) : ℝ) + areaScore wh + (if nb then 20 else 0)

/-- One element of the rendered page, as the in-page script reads it:
tag name (lowercase), `id`, class list, `innerText`/`textContent`,
bounding-box rectangle, the two style flags `isVisible` consults, and
`childElementCount`.  The rendering layer supplies all of these. -/
structure ElemData where
  tag : Str
  idAttr : Str
  classList : List Str
  innerText : Str
  textContent : Str
  x : ℚ
  y : ℚ
  width : ℚ
  height : ℚ
  visHidden : Bool
  dispNone : Bool
  childCount : Nat
deriving DecidableEq

/-- Ancestor context of an element: its parent's data, the tags of the
parent's children in document order, and the element's index among those
children.  This is what `parentElement` / `parent.children` /
`indexOf` provide to `cssPath` and `hasNeighborLabel`. -/
structure Crumb where
  parentData : ElemData
  siblingTags : List Str
  idx : Nat
deriving DecidableEq

/-- A located element: its data plus the chain of ancestor contexts,
nearest parent first; the last crumb's parent is the document body. -/
structure Loc where
  data : ElemData
  up : List Crumb
deriving DecidableEq

/-- A rendered page: the document-order list (`querySelectorAll('body *')`)
of all elements below the body. -/
structure Page where
  elems : List Loc

/-- `el.innerText || el.textContent || ''` (no trim), as `hasNeighborLabel`
reads the parent. -/
def rawTextOf (d : ElemData) : Str :=
  if d.innerText ≠ [] then d.innerText else d.textContent

/-- `textOf(el)` from `SELECTOR_JS`: the raw text, trimmed. -/
def textOf (d : ElemData) : Str := trim (rawTextOf d)

/-- `isVisible(el)`: not style-hidden, not display-none, and the bounding
box has positive width and height. -/
def isVisible (d : ElemData) : Bool :=
  !d.visHidden && !d.dispNone && decide (0 < d.width) && decide (0 < d.height)

/-- `hasNeighborLabel(el, label)`: false for an empty label or a missing
parent; otherwise a case-insensitive substring test of the label in the
parent's aggregate text. -/
def hasNeighborLabel (loc : Loc) (label : Str) : Bool :=
  if label = [] then false
  else
    match loc.up with
    | [] => false
    | c :: _ => isSub (toLowerStr label) (toLowerStr (rawTextOf c.parentData))

/-- One `tag.class1.class2:nth-of-type(i)` level of a structural path. -/
structure Seg where
  tag : Str
  classes : List Str
  nth : Nat
deriving DecidableEq

/-- The locator `cssPath` emits: an id selector `#id`, or a chain of
segments joined by the child combinator ` > `. -/
inductive Selector where
  | byId : Str → Selector
  | byPath : List Seg → Selector
deriving DecidableEq

/-- Occurrences of tag `t` in a tag list (`filter` by tag, then length). -/
def countTag (t : Str) (tags : List Str) : Nat :=
  (tags.filter fun s => s = t).length

/-- Class tokens kept by `cssPath`: non-empty and containing no digit. -/
def noDigitClass (s : Str) : Bool := s ≠ [] && !(s.any Char.isDigit)

/-- One path level: the tag, up to two digit-free classes, and the
1-based `nth-of-type` index among same-tag siblings before this element. -/
def mkSeg (d : ElemData) (c : Crumb) : Seg :=
  { tag := d.tag
    classes := (d.classList.filter noDigitClass).take 2
    nth := 1 + countTag d.tag (c.siblingTags.take c.idx) }

/-- The upward walk of `cssPath`: prepend one segment per level
(`parts.unshift`), step to the parent, and stop once the body is reached
or strictly more than 6 parts have been collected. -/
def cssLoop (cur : ElemData) (chain : List Crumb) (parts : List Seg) : List Seg :=
  match chain with
  | [] => parts
  | c :: rest =>
    (fun parts2 => if parts2.length > 6 then parts2 else cssLoop c.parentData rest parts2)
    (mkSeg cur c :: parts)

/-- Elements of the page carrying a given id value. -/
def idCount (page : Page) (i : Str) : Nat :=
  (page.elems.filter fun loc => loc.data.idAttr = i).length

/-- `cssPath(el)`: a document-unique id short-circuits; otherwise the
bounded upward walk. -/
def cssPath (page : Page) (loc : Loc) : Selector :=
  if loc.data.idAttr ≠ [] ∧ idCount page loc.data.idAttr = 1 then .byId loc.data.idAttr
  else .byPath (cssLoop loc.data loc.up [])

/-- Number of structural segments of a locator (an id selector is one). -/
def segCount : Selector → Nat
  | .byId _ => 1
  | .byPath ps => ps.length

/-- Decimal digits of a natural number. -/
def natDigits (n : Nat) : Str := Nat.toDigits 10 n

/-- Rendered text of one segment: `tag` + `.class` tokens + `:nth-of-type(i)`.
`CSS.escape` is the identity on the plain names appearing here. -/
def renderSeg (s : Seg) : Str :=
  s.tag ++ (s.classes.map fun c => '.' :: c).flatten
    ++ ':' :: 'n' :: 't' :: 'h' :: '-' :: 'o' :: 'f' :: '-' :: 't' :: 'y' :: 'p' :: 'e'
    :: '(' :: (natDigits s.nth ++ [ ')' ])

/-- Rendered locator string: `#id`, or the segments joined by ` > `. -/
def renderSel : Selector → Str
  | .byId i => '#' :: i
  | .byPath ps => List.intercalate [ ' ', '>', ' ' ] (ps.map renderSeg)

/-- CSS matching of one segment against a located element: same tag, the
segment's classes all present, and the `nth-of-type` position (1 + same-tag
siblings before it) equal.  An element with no recorded parent (the body)
matches no segment, as the emitted selectors only name elements below it. -/
def segMatches (s : Seg) (loc : Loc) : Bool :=
  match loc.up with
  | [] => false
  | c :: _ =>
    decide (s.tag = loc.data.tag)
      && s.classes.all (fun cl => loc.data.classList.contains cl)
      && decide (s.nth = 1 + countTag loc.data.tag (c.siblingTags.take c.idx))

/-- Matching of a child-combinator chain, innermost segment first: each
further segment must match the immediate parent in turn; the outermost
matched ancestor is unconstrained above. -/
def chainMatches : List Seg → Loc → Bool
  | [], _ => true
  | s :: rest, loc =>
    segMatches s loc &&
      (match rest with
       | [] => true
       | _ :: _ =>
         match loc.up with
         | [] => false
         | c :: up2 => chainMatches rest ⟨c.parentData, up2⟩)

/-- `querySelector`: the first element in document order matched by the
selector; an empty chain is an invalid selector and resolves to nothing. -/
def resolveSel (page : Page) : Selector → Option Loc
  | .byId i => page.elems.find? fun loc => decide (loc.data.idAttr = i)
  | .byPath [] => none
  | .byPath (s :: ps) => page.elems.find? fun loc => chainMatches ((s :: ps).reverse) loc

/-- One parsed line of `important.txt` (`parse_important`). -/
structure LabelValue where
  label : Str
  valueStr : Str
  valueFloat : Option ℚ
  unit : Option Str
deriving DecidableEq

/-- `lv.unit or ""`. -/
def unitOf (lv : LabelValue) : Str := lv.unit.getD []

/-- The bounding box recorded with each candidate. -/
structure Rect where
  x : ℚ
  y : ℚ
  width : ℚ
  height : ℚ
deriving DecidableEq

/-- One entry of the ranked list `SELECTOR_JS` returns. -/
structure Candidate where
  elText : Str
  path : Selector
  rect : Rect
  score : ℝ

/-- The enumeration loop of `SELECTOR_JS`: leaf elements under the body
(no element children), visible, whose text matches the target numeral at
some tier, each scored and given its structural path.  The element is kept
alongside its candidate record. -/
noncomputable def candidatesFor (page : Page) (lv : LabelValue) : List (Loc × Candidate) :=
  (page.elems.filter fun loc => loc.data.childCount = 0).filterMap fun loc =>
    if isVisible loc.data then
      match tierOf (textOf loc.data) lv.valueStr (unitOf lv) with
      | none => none
      | some t =>
        some (loc,
          { elText := textOf loc.data
            path := cssPath page loc
            rect := ⟨loc.data.x, loc.data.y, loc.data.width, loc.data.height⟩
            score := scoreOf t (loc.data.width * loc.data.height) (hasNeighborLabel loc lv.label) })
    else none

/-- Stable insertion into a descending-ordered list: the new element goes
in front of the first strictly smaller key, hence after every equal key. -/
def insertByScore {α β : Type} [LinearOrder β] (f : α → β) (x : α) : List α → List α
  | [] => [ x ]
  | y :: ys => if f y < f x then x :: y :: ys else y :: insertByScore f x ys

/-- Stable sort by descending key.  ES2019 `Array.sort` with the comparator
`(a, b) => b.score - a.score` is a stable descending sort, and a stable sort
is uniquely determined by its comparator, so insertion sort is a faithful
model of `candidates.sort(...)`. -/
def sortByScore {α β : Type} [LinearOrder β] (f : α → β) (l : List α) : List α :=
  l.foldl (fun acc x => insertByScore f x acc) []

/-- `candidates.sort(...)` then `slice(0, 5)`: the ranked top five. -/
noncomputable def rankCandidates (page : Page) (lv : LabelValue) : List (Loc × Candidate) :=
  (sortByScore (fun p => p.2.score) (candidatesFor page lv)).take 5

/-- The element of the winning candidate (`topk[0]`), when any. -/
noncomputable def winnerLoc (page : Page) (lv : LabelValue) : Option Loc :=
  (rankCandidates page lv).head?.map fun p => p.1

/-- The stored path of the winning candidate, when any. -/
noncomputable def winnerPath (page : Page) (lv : LabelValue) : Option Selector :=
  (rankCandidates page lv).head?.map fun p => p.2.path

/-- A persisted selector entry `{selector, type, expect}`; `none` models the
empty selector string "" (a recorded miss), and `renderSel` of a stored
selector is never empty. -/
structure SelectorEntry where
  selector : Option Selector
  entryType : Str
  expect : Str
deriving DecidableEq

/-- The entry `learn_selectors` stores for one label: the winner's path when
there is a winner with a non-empty path, else an explicit miss. -/
noncomputable def learnOne (page : Page) (lv : LabelValue) : SelectorEntry :=
  match (rankCandidates page lv).head? with
  | none => ⟨none, "text".data, lv.valueStr⟩
  | some p =>
    if renderSel p.2.path ≠ [] then ⟨some p.2.path, "text".data, lv.valueStr⟩
    else ⟨none, "text".data, lv.valueStr⟩

/-- Keys of an association list (a Python dict in insertion order). -/
def keysOf {α : Type} (m : List (Str × α)) : List Str := m.map fun p => p.1

/-- Python `d[k] = v`: overwrite in place when the key exists, else append. -/
def dictSet {α : Type} (m : List (Str × α)) (k : Str) (v : α) : List (Str × α) :=
  if (keysOf m).contains k then m.map fun p => if p.1 = k then (k, v) else p
  else m ++ [ (k, v) ]

/-- Python `d.get(k)` / `d[k]`: first (unique) binding of the key. -/
def dlookup {α : Type} (k : Str) : List (Str × α) → Option α
  | [] => none
  | p :: rest => if p.1 = k then some p.2 else dlookup k rest

/-- `learn_selectors`: one entry per label, later lines overwriting. -/
noncomputable def learnSelectors (page : Page) (labels : List LabelValue) :
    List (Str × SelectorEntry) :=
  labels.foldl (fun m lv => dictSet m lv.label (learnOne page lv)) []

/-- The last element satisfying a predicate, if any. -/
def lastWith {α : Type} (p : α → Bool) (l : List α) : Option α :=
  l.foldl (fun acc x => if p x then some x else acc) none

/-- `apply_selectors` for one entry: an empty selector yields `None` with no
resolution attempt; a resolution failure (the underlying `eval_on_selector`
raising) is caught to `None`; otherwise the trimmed text is searched for its
first numeral and parsed, every failure again yielding `None`. -/
def applyOne (page : Page) (e : SelectorEntry) : Option ℚ :=
  match e.selector with
  | none => none
  | some sel =>
    match resolveSel page sel with
    | none => none
    | some loc =>
      if textOf loc.data = [] then none
      else
        match searchNum (textOf loc.data) with
        | none => none
        | some m => parseDec m

/-- `apply_selectors`: every stored label mapped independently. -/
def applySelectors (page : Page) (m : List (Str × SelectorEntry)) :
    List (Str × Option ℚ) :=
  m.map fun p => (p.1, applyOne page p.2)

/-- The character class `[A-Za-z /]` of the label group in
`parse_important`'s line pattern. -/
def labelClassChar (c : Char) : Bool :=
  (('A' ≤ c && c ≤ 'Z') || ('a' ≤ c && c ≤ 'z')) || c = ' ' || c = '/'

/-- Length of the longest prefix satisfying `p`. -/
def runLen (p : Char → Bool) (s : Str) : Nat := (s.takeWhile p).length

/-- First `some` among `f` applied to the list in order. -/
def firstSome {α β : Type} (xs : List α) (f : α → Option β) : Option β :=
  match xs with
  | [] => none
  | x :: r =>
    match f x with
    | some b => some b
    | none => firstSome r f

/-- `n, n-1, ..., 0` — the order a greedy `*` quantifier tries widths. -/
def downFrom : Nat → List Nat
  | 0 => [ 0 ]
  | n + 1 => (n + 1) :: downFrom n

/-- `n, n-1, ..., 1` — the order a greedy `+` quantifier tries widths. -/
def downFrom1 : Nat → List Nat
  | 0 => []
  | n + 1 => (n + 1) :: downFrom1 n

/-- Python `re.match(r"^\s*([A-Za-z /]+)\s*:?\s*(.+)$", s)` with full greedy
backtracking, returning `(group 1, group 2)` of the leftmost-greedy match:
widths are tried longest first for each `\s*` and the label group, the
optional colon is tried present first, and the final `(.+)` takes the whole
remainder, which must be non-empty (the inputs hold no newline, so `.`
matches every remaining character). -/
def reLabelMatch (s : Str) : Option (Str × Str) :=
  firstSome (downFrom (runLen isWsChar s)) fun w =>
    (fun s1 =>
      firstSome (downFrom1 (runLen labelClassChar s1)) fun g =>
        (fun grp1 s2 =>
          firstSome (downFrom (runLen isWsChar s2)) fun a =>
            (fun s3 =>
              (fun (tryAfter : Str → Option (Str × Str)) =>
                match s3 with
                | ':' :: s4 =>
                  (match tryAfter s4 with
                   | some r => some r
                   | none => tryAfter s3)
                | _ => tryAfter s3)
              (fun s4 =>
                firstSome (downFrom (runLen isWsChar s4)) fun b =>
                  (fun s5 => if s5 = [] then none else some (grp1, s5))
                  (s4.drop b)))
            (s2.drop a))
        (s1.take g) (s1.drop g))
    (s.drop w)

/-- The trailing-unit pattern `re.search(r"[a-zA-Z%]+$", rest)`: the maximal
non-empty run of letters or `%` ending the string. -/
def unitOfRest (rest : Str) : Option Str :=
  (fun r => if r = [] then none else some r)
  ((rest.reverse.takeWhile fun c => (('A' ≤ c && c ≤ 'Z') || ('a' ≤ c && c ≤ 'z')) || c = '%').reverse)

/-- One line of `parse_important`: strip, skip blanks and the
`name:`/`gender:`/`time/date` prefixes (case-insensitive), split into label
and remainder, take the first numeral of the remainder and the trailing
unit; lines with no label split or no numeral are dropped. -/
def parseLine (raw : Str) : Option LabelValue :=
  (fun s =>
    if s = [] then none
    else if startsWith ("name:").data (toLowerStr s) then none
    else if startsWith ("gender:").data (toLowerStr s) then none
    else if startsWith ("time/date").data (toLowerStr s) then none
    else
      match reLabelMatch s with
      | none => none
      | some g =>
        (fun rest =>
          match searchNum rest with
          | none => none
          | some vs => some ⟨trim g.1, vs, parseDec vs, unitOfRest rest⟩)
        (trim g.2))
  (trim raw)

/-- `parse_important`: the parsed lines in order. -/
def parseImportant (lines : List Str) : List LabelValue :=
  lines.filterMap parseLine

/-- Split at the first occurrence of `c`, exclusive, or `none`. -/
def splitFirst (c : Char) : Str → Option (Str × Str)
  | [] => none
  | d :: r =>
    if d = c then some ([], r)
    else (splitFirst c r).map fun p => (d :: p.1, p.2)

/-- Split on every occurrence of `c` (Python `s.split(c)`); the empty
string splits to one empty piece. -/
def splitAll (c : Char) : Str → List Str
  | [] => [ ([] : Str) ]
  | d :: r =>
    if d = c then ([] : Str) :: splitAll c r
    else
      match splitAll c r with
      | [] => [ [ d ] ]
      | x :: xs => (d :: x) :: xs

/-- `urlparse(url).query`: the part after the first `?` of the part before
the first `#`, or empty. -/
def urlQuery (url : Str) : Str :=
  (fun beforeFrag =>
    match splitFirst '?' beforeFrag with
    | some p => p.2
    | none => [])
  (match splitFirst '#' url with
   | some p => p.1
   | none => url)

/-- Hex digit test for percent decoding. -/
def isHexChar (c : Char) : Bool :=
  c.isDigit || ('a' ≤ c && c ≤ 'f') || ('A' ≤ c && c ≤ 'F')

/-- Value of a hex digit. -/
def hexVal (c : Char) : Nat :=
  if c.isDigit then c.toNat - ('0').toNat
  else if 'a' ≤ c && c ≤ 'f' then c.toNat - ('a').toNat + 10
  else c.toNat - ('A').toNat + 10

/-- `urllib.parse.unquote_plus` on the ASCII data this program sees:
`+` becomes a space, a valid `%hh` becomes that character, and a malformed
percent is kept literally. -/
def pctDecode : Str → Str
  | [] => []
  | '+' :: r => ' ' :: pctDecode r
  | '%' :: a :: b :: r =>
    if isHexChar a && isHexChar b then Char.ofNat (16 * hexVal a + hexVal b) :: pctDecode r
    else '%' :: pctDecode (a :: b :: r)
  | c :: r => c :: pctDecode r

/-- `urllib.parse.parse_qsl(query)` with default flags: chunks split on
`&`, empty chunks and chunks without `=` skipped, empty values dropped
(`keep_blank_values=False`), names and values percent-decoded. -/
def parseQS (q : Str) : List (Str × Str) :=
  (splitAll '&' q).filterMap fun chunk =>
    match splitFirst '=' chunk with
    | none => none
    | some p => if p.2 = [] then none else some (pctDecode p.1, pctDecode p.2)

/-- `parse_qs(urlparse(url).query).get("t")` then `[0]`: the first value of
the `t` parameter, when present. -/
def getParamT (url : Str) : Option Str :=
  ((parseQS (urlQuery url)).filter fun p => p.1 = [ 't' ]).head?.map fun p => p.2

/-- Continuation of a Python int literal's digit part after its first
digit: further digits, with each underscore followed directly by another
digit (PEP 515 allows single underscores between digits only). -/
def pyDigitsTail : Str → Bool
  | [] => true
  | '_' :: r =>
    match r with
    | [] => false
    | c :: r2 => c.isDigit && pyDigitsTail r2
  | c :: r => c.isDigit && pyDigitsTail r

/-- The digit part of a Python int literal: one or more ASCII digits, with
single underscores allowed between digits — `int("1_000")` is 1000, while
a leading, trailing or doubled underscore raises. -/
def pyDigitsOk : Str → Bool
  | [] => false
  | c :: r => c.isDigit && pyDigitsTail r

/-- Python `int(s)` on ASCII decimal text: surrounding whitespace stripped,
an optional sign, then one or more digits with optional PEP 515 underscore
grouping; the value ignores the underscores.  Anything else raises,
modelled as `none`. -/
def pyInt (s : Str) : Option Int :=
  (fun t =>
    (fun (neg : Bool) (ds : Str) =>
      if pyDigitsOk ds then
        some ((if neg then (-1 : Int) else 1)
          * (digitsToNat (ds.filter fun c => c ≠ '_') : Int))
      else none)
    (t.head? = some '-')
    (match t with
     | '+' :: r => r
     | '-' :: r => r
     | _ => t))
  (trim s)

/-- Civil date (proleptic Gregorian, UTC) from days since 1970-01-01; the
standard `civil_from_days` computation `datetime.date.fromtimestamp`
implements, on floor-divided day counts. -/
def civilFromDays (z0 : Int) : Int × Int × Int :=
  (fun z =>
    (fun era =>
      (fun doe =>
        (fun yoe =>
          (fun y doy =>
            (fun mp =>
              (fun m d => (y + (if m ≤ 2 then 1 else 0), m, d))
              (mp + (if mp < 10 then 3 else (-9 : Int)))
              (doy - Int.fdiv (153 * mp + 2) 5 + 1))
            (Int.fdiv (5 * doy + 2) 153))
          (yoe + era * 400)
          (doe - (365 * yoe + Int.fdiv yoe 4 - Int.fdiv yoe 100)))
        (Int.fdiv (doe - Int.fdiv doe 1460 + Int.fdiv doe 36524 - Int.fdiv doe 146096) 365))
      (z - era * 146097))
    (Int.fdiv z 146097))
  (z0 + 719468)

/-- Zero-padded decimal rendering of a (non-negative) field. -/
def padNum (w : Nat) (n : Int) : Str :=
  (fun ds => List.replicate (w - ds.length) '0' ++ ds) (natDigits n.toNat)

/-- `date.isoformat()`: `YYYY-MM-DD`. -/
def isoOf (ymd : Int × Int × Int) : Str :=
  padNum 4 ymd.1 ++ '-' :: (padNum 2 ymd.2.1 ++ '-' :: padNum 2 ymd.2.2)

/-- UTC calendar date of an epoch-second timestamp:
`datetime.fromtimestamp(ts, tz=timezone.utc).date().isoformat()`. -/
def dateFromTs (ts : Int) : Str := isoOf (civilFromDays (Int.fdiv ts 86400))

/-- Smallest timestamp `datetime.fromtimestamp` accepts: 0001-01-01T00:00:00Z. -/
def tsMin : Int := -62135596800

/-- Largest timestamp `datetime.fromtimestamp` accepts: 9999-12-31T23:59:59Z. -/
def tsMax : Int := 253402300799

/-- `_date_from_url`: the UTC date of the `t` query parameter, `"unknown"`
when the parameter is absent, when `int()` raises, or when
`datetime.fromtimestamp` raises because the timestamp falls outside
year 1..9999 (both exceptions are caught by the same handler). -/
def dateFromUrl (url : Str) : Str :=
  match getParamT url with
  | none => ("unknown").data
  | some v =>
    match pyInt v with
    | none => ("unknown").data
    | some ts => if tsMin ≤ ts ∧ ts ≤ tsMax then dateFromTs ts else ("unknown").data

/-! Concrete fixture pages used by counterexamples and witnesses. -/

/-- A visible leaf `div` showing exactly the numeral 62.5. -/
def divLeafD : ElemData :=
  ⟨ ("div").data, [], [], ("62.5").data, ("62.5").data, 0, 0, 10, 10, false, false, 0⟩

/-- A wrapper `div` with one element child, same text. -/
def divWrapD : ElemData :=
  ⟨ ("div").data, [], [], ("62.5").data, ("62.5").data, 0, 0, 20, 20, false, false, 1⟩

/-- A body element with one `div` child. -/
def bodyD : ElemData :=
  ⟨ ("body").data, [], [], ("62.5").data, ("62.5").data, 0, 0, 1280, 4000, false, false, 1⟩

/-- Crumb for an element whose parent is a wrapper `div` with one child. -/
def wrapCrumb : Crumb := ⟨divWrapD, [ ("div").data ], 0⟩

/-- Crumb for an element sitting directly under the body. -/
def bodyCrumb : Crumb := ⟨bodyD, [ ("div").data ], 0⟩

/-- An element nested eight levels below the body (seven `div` wrappers and
the leaf): deep enough to exhaust the `cssPath` depth bound. -/
def c1Loc : Loc := ⟨divLeafD, List.replicate 7 wrapCrumb ++ [ bodyCrumb ]⟩

/-- The page holding the deep element. -/
def c1Page : Page := ⟨[ c1Loc ]⟩

/-- A leaf whose text contains the target numeral after another numeral. -/
def c2LeafD : ElemData :=
  ⟨ ("div").data, [], [], ("1 of 62.5").data, ("1 of 62.5").data, 0, 0, 10, 10, false, false, 0⟩

/-- The body of the round-trip counterexample page. -/
def c2BodyD : ElemData :=
  ⟨ ("body").data, [], [], ("1 of 62.5").data, ("1 of 62.5").data,
    0, 0, 1280, 4000, false, false, 1⟩

/-- The single leaf of the round-trip counterexample page. -/
def c2Loc : Loc := ⟨c2LeafD, [ ⟨c2BodyD, [ ("div").data ], 0⟩ ]⟩

/-- A page whose only leaf matches the target 62.5 merely as a substring,
with text "1 of 62.5" whose first numeral is 1. -/
def c2Page : Page := ⟨[ c2Loc ]⟩

/-- The learned label/value: Weight 62.5 kg. -/
def c2Lv : LabelValue := ⟨ ("Weight").data, ("62.5").data, some (125/2), some ("kg").data⟩

/-- The selector learned on both single-leaf fixture pages. -/
def c2Sel : Selector := .byPath [ ⟨ ("div").data, [], 1⟩ ]

/-- The element of the exact-match witness page. -/
def cwLoc : Loc := ⟨divLeafD, [ bodyCrumb ]⟩

/-- A page whose only leaf shows exactly "62.5". -/
def cwPage : Page := ⟨[ cwLoc ]⟩

/-- First section of the score-monotonicity counterexample page; its text
does not contain the label. -/
def c3SecAD : ElemData :=
  ⟨ ("section").data, [], [], ("x 7 y").data, ("x 7 y").data, 0, 0, 300, 100, false, false, 1⟩

/-- Small leaf (100 x 100) under the first section. -/
def c3LeafAD : ElemData :=
  ⟨ ("div").data, [], [], ("x 7 y").data, ("x 7 y").data, 0, 0, 100, 100, false, false, 0⟩

/-- Second section; its aggregate text contains the label "Weight". -/
def c3SecBD : ElemData :=
  ⟨ ("section").data, [], [], ("Weight z 7 w").data, ("Weight z 7 w").data,
    0, 0, 300, 300, false, false, 1⟩

/-- Large leaf (200 x 200) under the second section. -/
def c3LeafBD : ElemData :=
  ⟨ ("div").data, [], [], ("z 7 w").data, ("z 7 w").data, 0, 0, 200, 200, false, false, 0⟩

/-- Body of the score-monotonicity counterexample page. -/
def c3BodyD : ElemData :=
  ⟨ ("body").data, [], [], ("x 7 y Weight z 7 w").data, ("x 7 y Weight z 7 w").data,
    0, 0, 1280, 4000, false, false, 2⟩

/-- Crumb of the two sections under the body. -/
def c3BodyCrumb (i : Nat) : Crumb := ⟨c3BodyD, [ ("section").data, ("section").data ], i⟩

/-- The small leaf, located. -/
def c3LeafALoc : Loc := ⟨c3LeafAD, [ ⟨c3SecAD, [ ("div").data ], 0⟩, c3BodyCrumb 0 ]⟩

/-- The large leaf, located. -/
def c3LeafBLoc : Loc := ⟨c3LeafBD, [ ⟨c3SecBD, [ ("div").data ], 0⟩, c3BodyCrumb 1 ]⟩

/-- Page with two same-tier matches: a small one without the neighbor-label
bonus and a larger one with it. -/
def c3Page : Page :=
  ⟨[ ⟨c3SecAD, [ c3BodyCrumb 0 ]⟩, c3LeafALoc, ⟨c3SecBD, [ c3BodyCrumb 1 ]⟩, c3LeafBLoc ]⟩

/-- The target of the score-monotonicity counterexample: numeral 7,
label Weight, no unit. -/
def c3Lv : LabelValue := ⟨ ("Weight").data, [ '7' ], some 7, none⟩

/-! Helper lemmas. -/

/-- The head surviving `dropWhile` does not satisfy the predicate. -/
theorem dropWhile_head_not (p : Char → Bool) :
    ∀ (l : Str) (x : Char), (l.dropWhile p).head? = some x → p x = false := by
  intro l
  induction l with
  | nil => intro x h; simp at h
  | cons c r ih =>
    intro x h
    by_cases hc : p c
    · exact ih x (by simpa [List.dropWhile_cons, hc] using h)
    · simp [List.dropWhile_cons, hc] at h
      simpa [h] using (by simpa using hc : p c = false)

/-- Trimming is idempotent. -/
theorem trim_trim (s : Str) : trim (trim s) = trim s := by
  set p := isWsChar with hp
  set u := s.dropWhile p with hu
  set v := u.reverse.dropWhile p with hv
  have hvru : List.IsSuffix v u.reverse := by rw [hv]; exact List.dropWhile_suffix p
  obtain ⟨pre, hpre⟩ := hvru
  have hurev : u = v.reverse ++ pre.reverse := by
    have := congrArg List.reverse hpre
    simpa [List.reverse_append] using this.symm
  have hstep1 : v.reverse.dropWhile p = v.reverse := by
    cases hvr : v.reverse with
    | nil => simp
    | cons a t =>
      have hau : u.head? = some a := by
        rw [hurev, hvr]; simp
      have hnp : p a = false := by
        apply dropWhile_head_not p s
        rw [← hu, hau]
      simp [List.dropWhile_cons, hnp]
  have hstep2 : v.dropWhile p = v := by
    rw [hv]; exact List.dropWhile_idempotent p u.reverse
  show ((((v.reverse).dropWhile p).reverse).dropWhile p).reverse = v.reverse
  rw [hstep1, List.reverse_reverse, hstep2]

/-- The text the scoring loop reads is already trimmed. -/
theorem textOf_trim (d : ElemData) : trim (textOf d) = textOf d := trim_trim _

/-- Trimming the empty string gives the empty string. -/
theorem trim_nil : trim ([] : Str) = [] := rfl

/-- Exact-tier characterisation of `containsNumberLike`: non-empty text
whose trimmed form equals the numeral, and nothing else. -/
theorem tierOf_exact_iff (text n u : Str) :
    tierOf text n u = some Tier.exact ↔ text ≠ [] ∧ trim text = n := by
  unfold tierOf
  split_ifs with h1 h2 h3 h4 <;> simp_all

/-- Exact-unit characterisation: non-empty text, not an exact match, a
non-empty unit, and the trimmed text is numeral+unit with or without one
space. -/
theorem tierOf_exactUnit_iff (text n u : Str) :
    tierOf text n u = some Tier.exactUnit ↔
      text ≠ [] ∧ trim text ≠ n ∧
        (u ≠ [] ∧ (trim text = n ++ u ∨ trim text = n ++ ' ' :: u)) := by
  unfold tierOf
  split_ifs with h1 h2 h3 h4 <;> simp_all

/-- Partial-tier characterisation: non-empty text, neither exact form, and
the numeral a substring of the trimmed text. -/
theorem tierOf_sub_iff (text n u : Str) :
    tierOf text n u = some Tier.sub ↔
      text ≠ [] ∧ trim text ≠ n ∧
        ¬ (u ≠ [] ∧ (trim text = n ++ u ∨ trim text = n ++ ' ' :: u)) ∧
        isSub n (trim text) = true := by
  unfold tierOf
  split_ifs with h1 h2 h3 h4 <;> simp_all

section SortLemmas

variable {α β : Type} [LinearOrder β] (f : α → β)

/-- Members of an insertion are the inserted element or old members. -/
theorem insertByScore_mem (x : α) :
    ∀ (l : List α) (z : α), z ∈ insertByScore f x l ↔ z = x ∨ z ∈ l := by
  intro l
  induction l with
  | nil => intro z; simp [insertByScore]
  | cons y ys ih =>
    intro z
    by_cases h : f y < f x
    · simp [insertByScore, h]
    · simp only [insertByScore, if_neg h, List.mem_cons, ih]
      tauto

/-- Insertion keeps a descending list descending. -/
theorem insertByScore_pairwise (x : α) :
    ∀ (l : List α), l.Pairwise (fun a b => f b ≤ f a) →
      (insertByScore f x l).Pairwise (fun a b => f b ≤ f a) := by
  intro l
  induction l with
  | nil => intro _; simp [insertByScore]
  | cons y ys ih =>
    intro hp
    rcases List.pairwise_cons.mp hp with ⟨hy, hys⟩
    by_cases h : f y < f x
    · simp only [insertByScore, if_pos h]
      refine List.pairwise_cons.mpr ⟨?_, hp⟩
      intro z hz
      rcases List.mem_cons.mp hz with rfl | hz2
      · exact le_of_lt h
      · exact le_trans (hy z hz2) (le_of_lt h)
    · simp only [insertByScore, if_neg h]
      refine List.pairwise_cons.mpr ⟨?_, ih hys⟩
      intro z hz
      rcases (insertByScore_mem f x ys z).mp hz with rfl | hz2
      · exact not_lt.mp h
      · exact hy z hz2

/-- The sorting fold keeps the accumulator descending. -/
theorem sortFold_pairwise :
    ∀ (l acc : List α), acc.Pairwise (fun a b => f b ≤ f a) →
      (l.foldl (fun acc x => insertByScore f x acc) acc).Pairwise (fun a b => f b ≤ f a) := by
  intro l
  induction l with
  | nil => intro acc h; simpa using h
  | cons x r ih =>
    intro acc h
    exact ih _ (insertByScore_pairwise f x acc h)

/-- The modelled `candidates.sort` output is descending in the key. -/
theorem sortByScore_pairwise (l : List α) :
    (sortByScore f l).Pairwise (fun a b => f b ≤ f a) :=
  sortFold_pairwise f l [] (by simp)

/-- Inserting an element with a different key leaves a key-filter alone. -/
theorem filter_insert_ne (s : β) (x : α) (hx : f x ≠ s) :
    ∀ (l : List α),
      (insertByScore f x l).filter (fun z => decide (f z = s))
        = l.filter (fun z => decide (f z = s)) := by
  intro l
  induction l with
  | nil => simp [insertByScore, hx]
  | cons y ys ih =>
    by_cases h : f y < f x
    · simp [insertByScore, h, hx]
    · simp only [insertByScore, if_neg h]
      by_cases hy : f y = s <;> simp [hy, ih]

/-- Inserting an element with the filtered key into a descending list puts
it exactly at the end of the key-filter: stability of one insertion. -/
theorem filter_insert_eq (s : β) (x : α) (hx : f x = s) :
    ∀ (l : List α), l.Pairwise (fun a b => f b ≤ f a) →
      (insertByScore f x l).filter (fun z => decide (f z = s))
        = l.filter (fun z => decide (f z = s)) ++ [ x ] := by
  intro l
  induction l with
  | nil => intro _; simp [insertByScore, hx]
  | cons y ys ih =>
    intro hp
    rcases List.pairwise_cons.mp hp with ⟨hy, hys⟩
    by_cases h : f y < f x
    · have hrest : (y :: ys).filter (fun z => decide (f z = s)) = [] := by
        apply List.filter_eq_nil_iff.mpr
        intro z hz
        have hzle : f z ≤ f y := by
          rcases List.mem_cons.mp hz with rfl | hz2
          · exact le_refl _
          · exact hy z hz2
        have : f z < f x := lt_of_le_of_lt hzle h
        simp [ne_of_lt (hx ▸ this)]
      simp only [insertByScore, if_pos h]
      rw [List.filter_cons_of_pos (by simp [hx]), hrest]
      simp
    · simp only [insertByScore, if_neg h]
      by_cases hy2 : f y = s <;> simp [hy2, ih hys]

/-- The sorting fold appends the new elements of each key, in input order,
after the accumulator's. -/
theorem sortFold_filter (s : β) :
    ∀ (l acc : List α), acc.Pairwise (fun a b => f b ≤ f a) →
      ((l.foldl (fun acc x => insertByScore f x acc) acc).filter (fun z => decide (f z = s)))
        = acc.filter (fun z => decide (f z = s)) ++ l.filter (fun z => decide (f z = s)) := by
  intro l
  induction l with
  | nil => intro acc h; simp
  | cons x r ih =>
    intro acc h
    have step := ih (insertByScore f x acc) (insertByScore_pairwise f x acc h)
    rw [List.foldl_cons] at *
    rw [step]
    by_cases hx : f x = s
    · rw [filter_insert_eq f s x hx acc h,
        List.filter_cons_of_pos (by simp [hx]), List.append_assoc]
      simp
    · rw [filter_insert_ne f s x hx acc, List.filter_cons_of_neg (by simp [hx])]

/-- Stability of the modelled sort: for every key value, the elements
carrying that key appear in the sorted list exactly in input order. -/
theorem sortByScore_filter (s : β) (l : List α) :
    (sortByScore f l).filter (fun z => decide (f z = s))
      = l.filter (fun z => decide (f z = s)) :=
  by simpa using sortFold_filter f s l [] (by simp)

/-- The head of the sorted list is the first input element of its key: with
descending order this is the earliest enumerated maximal-score element. -/
theorem sortByScore_head_first (l : List α) (w : α)
    (hw : (sortByScore f l).head? = some w) :
    (l.filter (fun z => decide (f z = f w))).head? = some w := by
  have hfil := sortByScore_filter f (f w) l
  cases hsort : sortByScore f l with
  | nil => rw [hsort] at hw; simp at hw
  | cons a t =>
    rw [hsort] at hw
    simp only [List.head?_cons, Option.some.injEq] at hw
    subst hw
    rw [hsort] at hfil
    rw [← hfil, List.filter_cons_of_pos (by simp)]
    simp

end SortLemmas

/-- Each upward step adds one segment and the walk stops once more than six
have been collected, so at most seven ever accumulate. -/
theorem cssLoop_length_le :
    ∀ (chain : List Crumb) (cur : ElemData) (parts : List Seg),
      parts.length ≤ 6 → (cssLoop cur chain parts).length ≤ 7 := by
  intro chain
  induction chain with
  | nil => intro cur parts h; simpa [cssLoop] using le_trans h (by norm_num)
  | cons c rest ih =>
    intro cur parts h
    simp only [cssLoop]
    by_cases h6 : (mkSeg cur c :: parts).length > 6
    · simp only [if_pos h6]
      simpa using h
    · simp only [if_neg h6]
      exact ih c.parentData _ (by simpa using not_lt.mp h6)

section DictLemmas

variable {α : Type}

/-- Lookup misses exactly the keys outside the dict. -/
theorem dlookup_eq_none_iff (k : Str) :
    ∀ (m : List (Str × α)), dlookup k m = none ↔ k ∉ keysOf m := by
  intro m
  induction m with
  | nil => simp [dlookup, keysOf]
  | cons p rest ih =>
    simp only [dlookup, keysOf, List.map_cons, List.mem_cons]
    by_cases h : p.1 = k
    · rw [if_pos h]
      constructor
      · intro hh; exact Option.noConfusion hh
      · intro hh; exact absurd (Or.inl h.symm) hh
    · have hne : ¬ k = p.1 := fun hh => h hh.symm
      rw [if_neg h]
      simp only [keysOf] at ih
      rw [ih]
      constructor
      · intro hh hor
        rcases hor with h1 | h2
        · exact hne h1
        · exact hh h2
      · intro hh h2
        exact hh (Or.inr h2)

/-- Overwriting the value at `k` does not change the key list. -/
theorem keysOf_overwrite (k : Str) (v : α) :
    ∀ (m : List (Str × α)),
      keysOf (m.map fun p => if p.1 = k then (k, v) else p) = keysOf m := by
  intro m
  induction m with
  | nil => rfl
  | cons p rest ih =>
    by_cases h : p.1 = k
    · simp only [keysOf, List.map_cons, if_pos h] at ih ⊢
      rw [ih, h]
    · simp only [keysOf, List.map_cons, if_neg h] at ih ⊢
      rw [ih]

/-- Looking up an overwritten key finds the new value. -/
theorem dlookup_overwrite_eq (k : Str) (v : α) :
    ∀ (m : List (Str × α)), k ∈ keysOf m →
      dlookup k (m.map fun p => if p.1 = k then (k, v) else p) = some v := by
  intro m
  induction m with
  | nil => intro h; simp [keysOf] at h
  | cons p rest ih =>
    intro h
    by_cases hp : p.1 = k
    · simp only [List.map_cons, if_pos hp, dlookup]
      rw [if_pos trivial]
    · have hmem : k ∈ keysOf rest := by
        rcases List.mem_cons.mp (show k ∈ p.1 :: keysOf rest from h) with h1 | h2
        · exact absurd h1.symm hp
        · exact h2
      simp only [List.map_cons, if_neg hp, dlookup]
      exact ih hmem

/-- Looking up a different key ignores the overwrite. -/
theorem dlookup_overwrite_ne (k l : Str) (v : α) (hne : l ≠ k) :
    ∀ (m : List (Str × α)),
      dlookup l (m.map fun p => if p.1 = k then (k, v) else p) = dlookup l m := by
  intro m
  induction m with
  | nil => rfl
  | cons p rest ih =>
    by_cases hp : p.1 = k
    · have hpl : ¬ p.1 = l := by
        rw [hp]; exact fun h => hne h.symm
      simp only [List.map_cons, if_pos hp, dlookup]
      rw [if_neg (show ¬ ((k, v) : Str × α).1 = l from fun h => hne h.symm), if_neg hpl]
      exact ih
    · simp only [List.map_cons, if_neg hp, dlookup]
      by_cases hl : p.1 = l
      · rw [if_pos hl, if_pos hl]
      · rw [if_neg hl, if_neg hl]
        exact ih

/-- Appending a fresh binding is found only at its own key. -/
theorem dlookup_append_single (k l : Str) (v : α) :
    ∀ (m : List (Str × α)), k ∉ keysOf m →
      dlookup l (m ++ [ (k, v) ]) = if l = k then some v else dlookup l m := by
  intro m
  induction m with
  | nil =>
    intro _
    show dlookup l [ (k, v) ] = if l = k then some v else dlookup l []
    by_cases h : l = k
    · rw [if_pos h]
      show (if ((k, v) : Str × α).1 = l then some v else dlookup l []) = some v
      rw [if_pos (show ((k, v) : Str × α).1 = l from h.symm)]
    · rw [if_neg h]
      show (if ((k, v) : Str × α).1 = l then some v else dlookup l []) = dlookup l []
      rw [if_neg (show ¬ ((k, v) : Str × α).1 = l from fun hh => h hh.symm)]
  | cons p rest ih =>
    intro hk
    have hk2 : k ∉ keysOf rest := by
      intro h
      exact hk (show k ∈ p.1 :: keysOf rest from List.mem_cons.mpr (Or.inr h))
    by_cases hl : p.1 = l
    · have hlk : ¬ l = k := by
        intro h
        exact hk (show k ∈ p.1 :: keysOf rest from
          List.mem_cons.mpr (Or.inl ((hl.trans h).symm)))
      rw [if_neg hlk]
      show (if p.1 = l then some p.2 else dlookup l (rest ++ [ (k, v) ]))
        = (if p.1 = l then some p.2 else dlookup l rest)
      rw [if_pos hl, if_pos hl]
    · show (if p.1 = l then some p.2 else dlookup l (rest ++ [ (k, v) ]))
        = if l = k then some v else dlookup l (p :: rest)
      rw [if_neg hl, ih hk2]
      show _ = if l = k then some v else (if p.1 = l then some p.2 else dlookup l rest)
      by_cases h : l = k
      · rw [if_pos h, if_pos h]
      · rw [if_neg h, if_neg h, if_neg hl]

/-- `d[k] = v` then lookup: the set key reads back `v`, others unchanged. -/
theorem dlookup_dictSet (k l : Str) (v : α) (m : List (Str × α)) :
    dlookup l (dictSet m k v) = if l = k then some v else dlookup l m := by
  unfold dictSet
  by_cases hc : (keysOf m).contains k
  · rw [if_pos hc]
    by_cases h : l = k
    · subst h
      rw [if_pos rfl]
      exact dlookup_overwrite_eq l v m (by simpa using hc)
    · rw [if_neg h]
      exact dlookup_overwrite_ne k l v h m
  · rw [if_neg hc]
    exact dlookup_append_single k l v m (by simpa using hc)

/-- Keys after `d[k] = v`: unchanged when present, appended when fresh. -/
theorem keysOf_dictSet (k : Str) (v : α) (m : List (Str × α)) :
    keysOf (dictSet m k v)
      = if k ∈ keysOf m then keysOf m else keysOf m ++ [ k ] := by
  unfold dictSet
  by_cases hc : (keysOf m).contains k
  · rw [if_pos hc, if_pos (by simpa using hc)]
    exact keysOf_overwrite k v m
  · rw [if_neg hc, if_neg (by simpa using hc)]
    simp [keysOf]

/-- `d[k] = v` keeps the key list duplicate-free. -/
theorem nodup_keysOf_dictSet (k : Str) (v : α) (m : List (Str × α))
    (h : (keysOf m).Nodup) : (keysOf (dictSet m k v)).Nodup := by
  rw [keysOf_dictSet]
  by_cases hm : k ∈ keysOf m
  · simpa [hm] using h
  · simp only [if_neg hm]
    simpa [List.nodup_append] using ⟨h, hm⟩

/-- Membership in the keys after `d[k] = v`. -/
theorem mem_keysOf_dictSet (k l : Str) (v : α) (m : List (Str × α)) :
    l ∈ keysOf (dictSet m k v) ↔ l = k ∨ l ∈ keysOf m := by
  rw [keysOf_dictSet]
  by_cases hm : k ∈ keysOf m
  · simp only [if_pos hm]
    constructor
    · exact fun h => Or.inr h
    · rintro (rfl | h)
      · exact hm
      · exact h
  · simp only [if_neg hm]
    simp [or_comm]

end DictLemmas

/-- One more learned line updates the store with `dictSet`. -/
theorem learnSelectors_concat (page : Page) (labels : List LabelValue) (lv : LabelValue) :
    learnSelectors page (labels ++ [ lv ])
      = dictSet (learnSelectors page labels) lv.label (learnOne page lv) := by
  unfold learnSelectors
  rw [List.foldl_append]
  rfl

/-- `lastWith` over one more element. -/
theorem lastWith_concat {α : Type} (p : α → Bool) (l : List α) (x : α) :
    lastWith p (l ++ [ x ]) = if p x then some x else lastWith p l := by
  unfold lastWith
  rw [List.foldl_append]
  rfl

/-- `lastWith` hits exactly when some element satisfies the predicate. -/
theorem lastWith_ne_none_iff {α : Type} (p : α → Bool) :
    ∀ (l : List α), lastWith p l ≠ none ↔ ∃ x ∈ l, p x := by
  intro l
  induction l using List.reverseRecOn with
  | nil => simp [lastWith]
  | append_singleton l x ih =>
    rw [lastWith_concat]
    by_cases h : p x
    · rw [if_pos h]
      constructor
      · intro _
        exact ⟨x, List.mem_append.mpr (Or.inr (List.mem_singleton.mpr rfl)), h⟩
      · intro _
        exact fun hh => Option.noConfusion hh
    · simp only [if_neg h]
      rw [ih]
      constructor
      · rintro ⟨y, hy, hp⟩
        exact ⟨y, by simp [hy], hp⟩
      · rintro ⟨y, hy, hp⟩
        rcases List.mem_append.mp hy with h1 | h2
        · exact ⟨y, h1, hp⟩
        · rcases List.mem_singleton.mp h2 with rfl
          exact absurd hp h

/-- Lookup in the learned store: exactly the entry of the last input line
carrying that label. -/
theorem learn_lookup (page : Page) (l : Str) :
    ∀ (labels : List LabelValue),
      dlookup l (learnSelectors page labels)
        = (lastWith (fun lv => lv.label = l) labels).map (learnOne page) := by
  intro labels
  induction labels using List.reverseRecOn with
  | nil => rfl
  | append_singleton labels lv ih =>
    rw [learnSelectors_concat, lastWith_concat, dlookup_dictSet]
    by_cases h : lv.label = l
    · rw [if_pos (show l = lv.label from h.symm), if_pos (by simpa using h)]
      rfl
    · rw [if_neg (show ¬ l = lv.label from fun hh => h hh.symm),
        if_neg (by simpa using h), ih]

/-- The learned store's keys are duplicate-free. -/
theorem learn_keys_nodup (page : Page) :
    ∀ (labels : List LabelValue), (keysOf (learnSelectors page labels)).Nodup := by
  intro labels
  induction labels using List.reverseRecOn with
  | nil => simp [learnSelectors, keysOf]
  | append_singleton labels lv ih =>
    rw [learnSelectors_concat]
    exact nodup_keysOf_dictSet _ _ _ ih

/-- The learned store has a key exactly for each input label. -/
theorem learn_mem_keys (page : Page) (l : Str) :
    ∀ (labels : List LabelValue),
      l ∈ keysOf (learnSelectors page labels) ↔ l ∈ labels.map LabelValue.label := by
  intro labels
  have h1 : l ∈ keysOf (learnSelectors page labels)
      ↔ dlookup l (learnSelectors page labels) ≠ none := by
    constructor
    · intro hm hn
      exact ((dlookup_eq_none_iff l _).mp hn) hm
    · intro hne
      by_contra hm
      exact hne ((dlookup_eq_none_iff l _).mpr hm)
  rw [h1, learn_lookup]
  rw [show ((lastWith (fun lv => lv.label = l) labels).map (learnOne page) ≠ none)
      ↔ (lastWith (fun lv => lv.label = l) labels ≠ none) by
    cases lastWith (fun lv => lv.label = l) labels <;> simp]
  rw [lastWith_ne_none_iff]
  constructor
  · rintro ⟨lv, hlv, hp⟩
    exact List.mem_map.mpr ⟨lv, hlv, by simpa using hp⟩
  · intro h
    rcases List.mem_map.mp h with ⟨lv, hlv, hl⟩
    exact ⟨lv, hlv, by simpa using hl⟩

/-- Every learned entry repeats the line's `value_str` as `expect` and is
tagged `"text"`. -/
theorem learnOne_fields (page : Page) (lv : LabelValue) :
    (learnOne page lv).expect = lv.valueStr ∧ (learnOne page lv).entryType = ("text").data := by
  cases h : (rankCandidates page lv).head? with
  | none => simp [learnOne, h]
  | some p =>
    by_cases hr : renderSel p.2.path ≠ []
    · simp [learnOne, h, hr]
    · simp [learnOne, h, hr]

/-- With no usable winner (no candidate, or an empty rendered path) the
learned entry is the explicit miss record. -/
theorem learnOne_miss (page : Page) (lv : LabelValue)
    (h : (rankCandidates page lv).head? = none
        ∨ ∃ p, (rankCandidates page lv).head? = some p ∧ renderSel p.2.path = []) :
    learnOne page lv = ⟨none, ("text").data, lv.valueStr⟩ := by
  rcases h with h | ⟨p, hp, hr⟩
  · simp [learnOne, h]
  · simp [learnOne, hp, hr]

/-- Applying preserves the stored key list exactly. -/
theorem keysOf_applySelectors (page : Page) (m : List (Str × SelectorEntry)) :
    keysOf (applySelectors page m) = keysOf m := by
  unfold applySelectors keysOf
  rw [List.map_map]
  rfl

/-- Applying maps each label's entry independently through `applyOne`. -/
theorem dlookup_applySelectors (page : Page) (l : Str) :
    ∀ (m : List (Str × SelectorEntry)),
      dlookup l (applySelectors page m) = (dlookup l m).map (applyOne page) := by
  intro m
  induction m with
  | nil => rfl
  | cons p rest ih =>
    show (if p.1 = l then some (applyOne page p.2) else dlookup l (applySelectors page rest))
      = ((if p.1 = l then some p.2 else dlookup l rest).map (applyOne page))
    by_cases h : p.1 = l
    · rw [if_pos h, if_pos h]
      rfl
    · rw [if_neg h, if_neg h, ih]

/-- The inverse-area bonus of a 100 x 100 box. -/
theorem areaScore_10000 : areaScore 10000 = 10 := by
  unfold areaScore
  rw [show ((10000 : ℚ) : ℝ) = 10000 by norm_num,
    max_eq_right (by norm_num : (1:ℝ) ≤ 10000),
    show (10000:ℝ) = 100 ^ 2 by norm_num, Real.sqrt_sq (by norm_num : (0:ℝ) ≤ 100),
    max_eq_right (by norm_num : (1:ℝ) ≤ 100)]
  norm_num

/-- The inverse-area bonus of a 200 x 200 box. -/
theorem areaScore_40000 : areaScore 40000 = 5 := by
  unfold areaScore
  rw [show ((40000 : ℚ) : ℝ) = 40000 by norm_num,
    max_eq_right (by norm_num : (1:ℝ) ≤ 40000),
    show (40000:ℝ) = 200 ^ 2 by norm_num, Real.sqrt_sq (by norm_num : (0:ℝ) ≤ 200),
    max_eq_right (by norm_num : (1:ℝ) ≤ 200)]
  norm_num

/-- The inverse-area bonus shrinks (weakly) as the box area grows. -/
theorem areaScore_antitone (a b : ℚ) (h : a ≤ b) : areaScore b ≤ areaScore a := by
  unfold areaScore
  have hd : max (1:ℝ) (Real.sqrt (max 1 ((a : ℚ) : ℝ)))
      ≤ max 1 (Real.sqrt (max 1 ((b : ℚ) : ℝ))) := by
    apply max_le_max le_rfl
    apply Real.sqrt_le_sqrt
    apply max_le_max le_rfl
    exact_mod_cast h
  have hpos : (0:ℝ) < max 1 (Real.sqrt (max 1 ((a : ℚ) : ℝ))) :=
    lt_of_lt_of_le one_pos (le_max_left _ _)
  exact div_le_div_of_nonneg_left (by norm_num) hpos hd

/-! Claim theorems. -/

/-- Claim C1, counterexample: on a page holding an element nested eight
levels below the body, `cssPath` emits seven structural segments, refuting
the stated bound of six — the loop appends a segment and only then checks
`parts.length > 6`. -/
theorem c1_counterexample :
    segCount (cssPath c1Page c1Loc) = 7 ∧ ¬ segCount (cssPath c1Page c1Loc) ≤ 6 := by
  constructor
  · decide
  · decide

/-- Claim C1, amended: every locator `cssPath` produces has at most seven
structural segments (an id locator counting as one). -/
theorem c1_cssPath_segments_le_seven (page : Page) (loc : Loc) :
    segCount (cssPath page loc) ≤ 7 := by
  unfold cssPath
  by_cases h : loc.data.idAttr ≠ [] ∧ idCount page loc.data.idAttr = 1
  · rw [if_pos h]
    norm_num [segCount]
  · rw [if_neg h]
    show (cssLoop loc.data loc.up []).length ≤ 7
    exact cssLoop_length_le loc.up loc.data [] (by norm_num)

/-- Claim C2, counterexample: on a page whose only matching leaf shows
"1 of 62.5", learning for target 62.5 stores a non-empty selector, yet
applying the learned map to the unchanged page yields 1, the first numeral
of the resolved text, not 62.5. -/
theorem c2_counterexample :
    learnSelectors c2Page [ c2Lv ]
        = [ ( ("Weight").data, ⟨some c2Sel, ("text").data, ("62.5").data⟩) ]
  ∧ renderSel c2Sel ≠ []
  ∧ applySelectors c2Page (learnSelectors c2Page [ c2Lv ])
        = [ ( ("Weight").data, some 1) ]
  ∧ parseDec ( ("62.5").data) = some (125/2)
  ∧ (1 : ℚ) ≠ 125/2 := by
  refine ⟨by decide, by decide, ?_, ?_, by norm_num⟩
  · have h : applySelectors c2Page (learnSelectors c2Page [ c2Lv ])
        = [ ( ("Weight").data, some (mkRat 1 1)) ] := by decide
    rw [h, show mkRat 1 1 = 1 by rw [Rat.mkRat_eq_div]; norm_num]
  · have h : parseDec ( ("62.5").data) = some (mkRat 625 10) := by decide
    rw [h, Rat.mkRat_eq_div]
    norm_num

/-- Claim C2, amended: the round trip does reproduce `value_str` parsed as
a float for a label whose winning candidate matched at the exact tier,
whose stored selector is non-empty and resolves on the unchanged page back
to the winning element, and whose `value_str` is itself the first numeral
of itself (as every `value_str` produced by `parse_important` is). -/
theorem c2_roundtrip_exact (page : Page) (lv : LabelValue) (w : Loc) (sel : Selector)
    (hw : winnerLoc page lv = some w)
    (hsel : winnerPath page lv = some sel)
    (hr : renderSel sel ≠ [])
    (ht : tierOf (textOf w.data) lv.valueStr (unitOf lv) = some Tier.exact)
    (hres : resolveSel page sel = some w)
    (hnum : searchNum lv.valueStr = some lv.valueStr) :
    applyOne page (learnOne page lv) = parseDec lv.valueStr := by
  cases hhead : (rankCandidates page lv).head? with
  | none =>
    unfold winnerLoc at hw
    rw [hhead] at hw
    exact Option.noConfusion hw
  | some p =>
    unfold winnerLoc at hw
    unfold winnerPath at hsel
    rw [hhead] at hw hsel
    obtain rfl : p.1 = w := by simpa using hw
    obtain rfl : p.2.path = sel := by simpa using hsel
    have hchar := (tierOf_exact_iff (textOf p.1.data) lv.valueStr (unitOf lv)).mp ht
    have heq : textOf p.1.data = lv.valueStr := (textOf_trim p.1.data).symm.trans hchar.2
    have hvne : lv.valueStr ≠ [] := heq ▸ hchar.1
    have hlearn : learnOne page lv = ⟨some p.2.path, ("text").data, lv.valueStr⟩ := by
      simp [learnOne, hhead, hr]
    rw [hlearn]
    show (match resolveSel page p.2.path with
      | none => none
      | some loc =>
        if textOf loc.data = [] then none
        else
          match searchNum (textOf loc.data) with
          | none => none
          | some m => parseDec m) = parseDec lv.valueStr
    rw [hres]
    show (if textOf p.1.data = [] then none
      else
        match searchNum (textOf p.1.data) with
        | none => none
        | some m => parseDec m) = parseDec lv.valueStr
    rw [heq, if_neg hvne, hnum]

/-- Claim C2 witness: on a page whose only leaf shows exactly "62.5", the
hypotheses hold and the round trip returns 62.5. -/
theorem c2_roundtrip_exact_witness :
    applyOne cwPage (learnOne cwPage c2Lv) = parseDec c2Lv.valueStr :=
  c2_roundtrip_exact cwPage c2Lv cwLoc c2Sel (by decide) (by decide) (by decide)
    (by decide) (by decide) (by decide)

/-- Claim C3, counterexample: two partial-tier candidates on one page for
the same target, the small one (100 x 100) without the neighbor-label
bonus scoring 20, the large one (200 x 200) with the bonus scoring 35 —
the larger box scores strictly higher within the same tier. -/
theorem c3_counterexample :
    ((candidatesFor c3Page c3Lv).map fun p => p.2.score)
        = [ scoreOf Tier.sub (100 * 100) false, scoreOf Tier.sub (200 * 200) true ]
  ∧ ((candidatesFor c3Page c3Lv).map fun p => tierOf p.2.elText c3Lv.valueStr (unitOf c3Lv))
        = [ some Tier.sub, some Tier.sub ]
  ∧ ((candidatesFor c3Page c3Lv).map fun p => (p.2.rect.width, p.2.rect.height))
        = [ (100, 100), (200, 200) ]
  ∧ scoreOf Tier.sub (100 * 100) false < scoreOf Tier.sub (200 * 200) true := by
  have h1 : scoreOf Tier.sub (100 * 100) false = 20 := by
    unfold scoreOf
    rw [show ((100 : ℚ) * 100) = 10000 by norm_num, areaScore_10000]
    norm_num [baseScore]
  have h2 : scoreOf Tier.sub (200 * 200) true = 35 := by
    unfold scoreOf
    rw [show ((200 : ℚ) * 200) = 40000 by norm_num, areaScore_40000]
    norm_num [baseScore]
  refine ⟨rfl, by decide, by decide, ?_⟩
  rw [h1, h2]
  norm_num

/-- Claim C3, amended: among candidates with the same tier and the same
neighbor-label bonus, the final score is monotonically non-increasing in
bounding-box area; the fixed +20 label bonus is the only way a larger
same-tier candidate can outscore a smaller one. -/
theorem c3_score_area_antitone (t : Tier) (nb : Bool) (a b : ℚ) (h : a ≤ b) :
    scoreOf t b nb ≤ scoreOf t a nb := by
  unfold scoreOf
  exact add_le_add_right (add_le_add_left (areaScore_antitone a b h) _) _

/-- Claim C3 witness: concrete instance of the amended monotonicity at
areas 1 and 4. -/
theorem c3_score_area_antitone_witness :
    (1 : ℚ) ≤ 4 ∧ scoreOf Tier.sub 4 false ≤ scoreOf Tier.sub 1 false :=
  ⟨by norm_num, c3_score_area_antitone Tier.sub false 1 4 (by norm_num)⟩

/-- Claim C4: an entry with the empty selector applies to `None` on every
page — the selector branch short-circuits before any resolution. -/
theorem c4_empty_selector_null (page : Page) (e : SelectorEntry)
    (h : e.selector = none) : applyOne page e = none := by
  unfold applyOne
  rw [h]

/-- Claim C4 witness: the Height-style empty entry yields `None` on a
concrete page. -/
theorem c4_empty_selector_null_witness :
    SelectorEntry.selector ⟨none, ("text").data, [ '1' ]⟩ = none
      ∧ applyOne c2Page ⟨none, ("text").data, [ '1' ]⟩ = none :=
  ⟨rfl, c4_empty_selector_null c2Page ⟨none, ("text").data, [ '1' ]⟩ rfl⟩

/-- Claim C5, counterexample: an element with empty text against the empty
numeral has trimmed text equal to the numeral yet is discarded, because
`containsNumberLike` rejects empty text before the exact check. -/
theorem c5_counterexample :
    trim ([] : Str) = [] ∧ tierOf [] [] [] = none ∧ none ≠ some Tier.exact := by
  refine ⟨rfl, rfl, ?_⟩
  intro h
  exact Option.noConfusion h

/-- Claim C5, amended: the four outcomes are checked in priority order
exact, exact-with-unit, partial, discard with base scores 60/45/10, the
"62.5kg" example classifies as exact-with-unit, and any element whose
trimmed text equals a non-empty numeral classifies exact. -/
theorem c5_tier_priority_scores :
    (∀ text n u : Str, tierOf text n u = some Tier.exact ↔ text ≠ [] ∧ trim text = n)
  ∧ (∀ text n u : Str, tierOf text n u = some Tier.exactUnit ↔
      text ≠ [] ∧ trim text ≠ n ∧
        (u ≠ [] ∧ (trim text = n ++ u ∨ trim text = n ++ ' ' :: u)))
  ∧ (∀ text n u : Str, tierOf text n u = some Tier.sub ↔
      text ≠ [] ∧ trim text ≠ n ∧
        ¬ (u ≠ [] ∧ (trim text = n ++ u ∨ trim text = n ++ ' ' :: u)) ∧
        isSub n (trim text) = true)
  ∧ baseScore Tier.exact = 60 ∧ baseScore Tier.exactUnit = 45 ∧ baseScore Tier.sub = 10
  ∧ tierOf ("62.5kg").data ("62.5").data ("kg").data = some Tier.exactUnit
  ∧ (∀ text n u : Str, n ≠ [] → trim text = n → tierOf text n u = some Tier.exact) := by
  refine ⟨tierOf_exact_iff, tierOf_exactUnit_iff, tierOf_sub_iff, rfl, rfl, rfl,
    by decide, ?_⟩
  intro text n u hn htr
  apply (tierOf_exact_iff text n u).mpr
  refine ⟨?_, htr⟩
  intro h0
  apply hn
  rw [← htr, h0]
  rfl

/-- Claim C6: the ranked candidate list keeps at most five entries, is
descending in score, and the sort is stable: for every score value the
elements carrying it stay in enumeration order, so the head of the sort is
the earliest-enumerated candidate of its (maximal) score. -/
theorem c6_top5_sorted_stable (page : Page) (lv : LabelValue) :
    (rankCandidates page lv).length ≤ 5
  ∧ (rankCandidates page lv).Pairwise (fun a b => b.2.score ≤ a.2.score)
  ∧ (∀ s : ℝ,
      (sortByScore (fun p : Loc × Candidate => p.2.score) (candidatesFor page lv)).filter
          (fun c => decide (c.2.score = s))
        = (candidatesFor page lv).filter (fun c => decide (c.2.score = s)))
  ∧ (∀ w : Loc × Candidate,
      (sortByScore (fun p : Loc × Candidate => p.2.score) (candidatesFor page lv)).head?
          = some w →
      ((candidatesFor page lv).filter (fun c => decide (c.2.score = w.2.score))).head?
          = some w) := by
  refine ⟨?_, ?_, ?_, ?_⟩
  · unfold rankCandidates
    simp [List.length_take]
  · unfold rankCandidates
    exact (sortByScore_pairwise _ _).sublist (List.take_sublist 5 _)
  · intro s
    exact sortByScore_filter _ s _
  · intro w hw
    exact sortByScore_head_first _ _ w hw

/-- Claim C7: the line "Weight: 62.5 kg" parses to label Weight, numeral
"62.5", float 62.5 and unit kg. -/
theorem c7_weight_line :
    parseImportant [ ("Weight: 62.5 kg").data ]
        = [ ⟨ ("Weight").data, ("62.5").data, some (mkRat 625 10), some ( ("kg").data)⟩ ]
  ∧ mkRat 625 10 = 125/2 := by
  refine ⟨by decide, ?_⟩
  rw [Rat.mkRat_eq_div]
  norm_num

/-- Claim C8, counterexample: `t=253402300800` is present and numeric, yet
the date key is "unknown" — the timestamp lies beyond year 9999, so
`datetime.fromtimestamp` raises and the handler returns "unknown". -/
theorem c8_counterexample :
    getParamT ("http://h/p?t=253402300800").data = some ( ("253402300800").data)
  ∧ pyInt ( ("253402300800").data) = some 253402300800
  ∧ dateFromUrl ("http://h/p?t=253402300800").data = ("unknown").data := by
  refine ⟨by decide, by decide, by decide⟩

/-- Claim C8, amended: the date key is the UTC calendar date of the `t`
parameter whenever it is present, numeric (in `int()`'s syntax, which
includes PEP 515 underscore grouping) and within `datetime`'s
representable range (years 1..9999), and the literal "unknown" when the
parameter is absent or non-numeric; `t=0` gives 1970-01-01, the
underscore-grouped `t=1_000` also gives 1970-01-01, and a URL without `t`
gives "unknown". -/
theorem c8_date_key :
    (∀ (url v : Str) (ts : Int),
        getParamT url = some v → pyInt v = some ts → tsMin ≤ ts → ts ≤ tsMax →
          dateFromUrl url = dateFromTs ts)
  ∧ (∀ url : Str, getParamT url = none → dateFromUrl url = ("unknown").data)
  ∧ (∀ (url v : Str), getParamT url = some v → pyInt v = none →
        dateFromUrl url = ("unknown").data)
  ∧ dateFromUrl ("http://h/p?t=0").data = ("1970-01-01").data
  ∧ pyInt ("1_000").data = some 1000
  ∧ dateFromUrl ("http://h/p?t=1_000").data = ("1970-01-01").data
  ∧ dateFromUrl ("http://h/p?x=1").data = ("unknown").data := by
  refine ⟨?_, ?_, ?_, by decide, by decide, by decide, by decide⟩
  · intro url v ts h1 h2 h3 h4
    unfold dateFromUrl
    rw [h1]
    show (match pyInt v with
      | none => ("unknown").data
      | some ts => if tsMin ≤ ts ∧ ts ≤ tsMax then dateFromTs ts else ("unknown").data)
      = dateFromTs ts
    rw [h2]
    show (if tsMin ≤ ts ∧ ts ≤ tsMax then dateFromTs ts else ("unknown").data) = dateFromTs ts
    rw [if_pos ⟨h3, h4⟩]
  · intro url h1
    unfold dateFromUrl
    rw [h1]
  · intro url v h1 h2
    unfold dateFromUrl
    rw [h1]
    show (match pyInt v with
      | none => ("unknown").data
      | some ts => if tsMin ≤ ts ∧ ts ≤ tsMax then dateFromTs ts else ("unknown").data)
      = ("unknown").data
    rw [h2]

/-- Claim C9: learning stores exactly one entry per distinct label — keys
are duplicate-free and exactly the input labels, each label's entry comes
from the last input line carrying it, every entry repeats the line's
`value_str` as `expect`, and a label without a usable winner still gets an
explicit empty-selector entry. -/
theorem c9_one_entry_per_label (page : Page) (labels : List LabelValue) :
    (keysOf (learnSelectors page labels)).Nodup
  ∧ (∀ l : Str, l ∈ keysOf (learnSelectors page labels) ↔ l ∈ labels.map LabelValue.label)
  ∧ (∀ l : Str, dlookup l (learnSelectors page labels)
      = (lastWith (fun lv => lv.label = l) labels).map (learnOne page))
  ∧ (∀ lv : LabelValue, (learnOne page lv).expect = lv.valueStr)
  ∧ (∀ lv : LabelValue,
      ((rankCandidates page lv).head? = none
        ∨ ∃ p, (rankCandidates page lv).head? = some p ∧ renderSel p.2.path = []) →
      learnOne page lv = ⟨none, ("text").data, lv.valueStr⟩) :=
  ⟨learn_keys_nodup page labels, fun l => learn_mem_keys page l labels,
    fun l => learn_lookup page l labels, fun lv => (learnOne_fields page lv).1,
    fun lv h => learnOne_miss page lv h⟩

/-- Claim C10: applying a map returns exactly the stored key list, each
label's result computed independently from its own entry by `applyOne`,
and any resolution or numeral-parse failure degrades that label to `None`
without affecting the rest. -/
theorem c10_apply_keys_independent (page : Page) (m : List (Str × SelectorEntry)) :
    keysOf (applySelectors page m) = keysOf m
  ∧ (∀ (l : Str) (e : SelectorEntry), dlookup l m = some e →
      dlookup l (applySelectors page m) = some (applyOne page e))
  ∧ (∀ (e : SelectorEntry) (sel : Selector), e.selector = some sel →
      resolveSel page sel = none → applyOne page e = none)
  ∧ (∀ (e : SelectorEntry) (sel : Selector) (loc : Loc), e.selector = some sel →
      resolveSel page sel = some loc → searchNum (textOf loc.data) = none →
      applyOne page e = none) := by
  refine ⟨keysOf_applySelectors page m, ?_, ?_, ?_⟩
  · intro l e h
    rw [dlookup_applySelectors, h]
    rfl
  · intro e sel h1 h2
    unfold applyOne
    rw [h1]
    show (match resolveSel page sel with
      | none => none
      | some loc =>
        if textOf loc.data = [] then none
        else
          match searchNum (textOf loc.data) with
          | none => none
          | some m => parseDec m) = none
    rw [h2]
  · intro e sel loc h1 h2 h3
    unfold applyOne
    rw [h1]
    show (match resolveSel page sel with
      | none => none
      | some loc =>
        if textOf loc.data = [] then none
        else
          match searchNum (textOf loc.data) with
          | none => none
          | some m => parseDec m) = none
    rw [h2]
    show (if textOf loc.data = [] then none
      else
        match searchNum (textOf loc.data) with
        | none => none
        | some m => parseDec m) = none
    by_cases ht : textOf loc.data = []
    · rw [if_pos ht]
    · rw [if_neg ht, h3]

end STracker

